import Mathlib

/-
Verification of the resilient Azure call executor and its collaborators
(`src/services/azure-client.ts`, `src/utils/logger.ts`).

Shallow embedding conventions:
- JS strings are Lean `String`; `toLowerCase` is ASCII lowering over the
  character list (`jsToLower`); `String.includes` is `strContains`.
- A thrown JS value is `Thrown`: either an `Error` object (name, message)
  or some non-`Error` value (`Thrown.other`); the executor normalizes the
  latter to `new Error('Unknown error')` exactly as the `catch` block does.
- The wrapped async operation is modelled as a function from the attempt
  number (1-based) to that attempt's outcome.
- Wall-clock instants are `Int` milliseconds; `sleep d` starting at `now`
  wakes at `now + d`.
-/

/-- JS `hay.includes(needle)`: `needle` occurs as a contiguous substring. -/
def strContains (hay needle : String) : Bool :=
  (List.range (hay.data.length + 1)).any fun i => needle.data.isPrefixOf (hay.data.drop i)

/-- JS `s.toLowerCase()` (ASCII letters, which covers every configured signature). -/
def jsToLower (s : String) : String :=
  String.mk (s.data.map Char.toLower)

/-- Spec-side notion: `needle` occurs in `hay` case-insensitively. -/
def containsCaseInsensitive (hay needle : String) : Prop :=
  (jsToLower needle).data <:+: (jsToLower hay).data

/-- A JS `Error` object: `name` and `message` fields. -/
structure JSError where
  name : String
  message : String
deriving DecidableEq

/-- A value thrown by JS code: an `Error` instance or anything else. -/
inductive Thrown where
  | err (e : JSError)
  | other
deriving DecidableEq

/-- `error instanceof Error ? error : new Error('Unknown error')`
(azure-client.ts line 168). -/
def normalizeThrown : Thrown → JSError
  | .err e => e
  | .other => ⟨"Error", "Unknown error"⟩

/-- `RetryOptions` (src/index.ts lines 239-244). -/
structure RetryOptions where
  maxRetries : Nat
  baseDelay : Nat
  maxDelay : Nat
  retryableErrors : List String
deriving DecidableEq

/-- `DEFAULT_RETRY_OPTIONS` (azure-client.ts lines 50-65). -/
def DEFAULT_RETRY_OPTIONS : RetryOptions :=
  { maxRetries := 3
    baseDelay := 1000
    maxDelay := 30000
    retryableErrors :=
      ["ETIMEDOUT", "ECONNRESET", "ENOTFOUND", "ECONNREFUSED", "ThrottledRequest",
       "TooManyRequests", "InternalServerError", "ServiceUnavailable", "RequestTimeout"] }

/-- `AzureClientManager.isRetryableError` (azure-client.ts lines 241-248). -/
def isRetryableError (ro : RetryOptions) (error : JSError) : Bool :=
  let errorMessage := jsToLower error.message
  ro.retryableErrors.any fun retryableError =>
    strContains errorMessage (jsToLower retryableError) ||
    strContains (jsToLower error.name) (jsToLower retryableError)

/-- The backoff delay computed before retrying after a failed attempt
(azure-client.ts lines 185-188): `min(baseDelay * 2^(attempt-1), maxDelay)`. -/
def backoffDelay (ro : RetryOptions) (attempt : Nat) : Nat :=
  min (ro.baseDelay * 2 ^ (attempt - 1)) ro.maxDelay

/-- Observable outcome of one logical call through the executor: the value
returned or error thrown, how many times the operation body ran, and the
backoff delays slept between attempts, in order. -/
structure ExecResult (α : Type) where
  outcome : Except JSError α
  attempts : Nat
  delays : List Nat

/-- The retry loop of `executeWithRetry` (azure-client.ts lines 147-212),
entered at a given attempt number. The loop breaks (and then throws
`lastError`) when the attempt count is exhausted or the error is not
retryable; otherwise it sleeps the backoff delay and retries. From the entry
point the loop is only ever reached with `attempt ≤ maxRetries + 1`, and the
break always fires by `attempt = maxRetries + 1`, so the `for` guard itself
never terminates the loop. -/
def executeAux (ro : RetryOptions) (op : Nat → Except Thrown α) (attempt : Nat) :
    ExecResult α :=
  match op attempt with
  | Except.ok result => { outcome := Except.ok result, attempts := 1, delays := [] }
  | Except.error thrown =>
    let lastError := normalizeThrown thrown
    if h : ro.maxRetries < attempt ∨ isRetryableError ro lastError = false then
      { outcome := Except.error lastError, attempts := 1, delays := [] }
    else
      let rest := executeAux ro op (attempt + 1)
      { outcome := rest.outcome
        attempts := rest.attempts + 1
        delays := backoffDelay ro attempt :: rest.delays }
termination_by ro.maxRetries + 1 - attempt
decreasing_by
  push_neg at h
  omega

/-- Mutable executor state: `requestCount` and `lastRequestTime` fields of
`AzureClientManager` (azure-client.ts lines 77-78). -/
structure ExecutorState where
  requestCount : Nat
  lastRequestTime : Int
deriving DecidableEq

/-- `rateLimitDelay` (azure-client.ts line 79): 100ms between requests. -/
def rateLimitDelay : Int := 100

/-- `AzureClientManager.applyRateLimit` (azure-client.ts lines 217-236):
waits out the remainder of the minimum spacing, then records the new
request start time and bumps the request counter. Returns the wait
performed together with the updated state. -/
def applyRateLimit (s : ExecutorState) (now : Int) : Int × ExecutorState :=
  let timeSinceLastRequest := now - s.lastRequestTime
  let wait :=
    if timeSinceLastRequest < rateLimitDelay then rateLimitDelay - timeSinceLastRequest else 0
  (wait, { requestCount := s.requestCount + 1, lastRequestTime := now + wait })

/-- `AzureClientManager.executeWithRetry` (azure-client.ts lines 135-212):
apply the rate limit gate once, then run the retry loop from attempt 1.
Only the gate touches the executor state. -/
def executeWithRetry (ro : RetryOptions) (s : ExecutorState) (now : Int)
    (op : Nat → Except Thrown α) : ExecResult α × ExecutorState :=
  let rl := applyRateLimit s now
  (executeAux ro op 1, rl.2)

/-- `AzureClientManager.getStatistics` (azure-client.ts lines 513-518). -/
structure Statistics where
  requestCount : Nat
  lastRequestTime : Int
deriving DecidableEq

def getStatistics (s : ExecutorState) : Statistics :=
  { requestCount := s.requestCount, lastRequestTime := s.lastRequestTime }

/-- A sequence of logical calls through one executor instance: each call
supplies its start instant and its operation; the state threads through. -/
def runCalls (ro : RetryOptions) (s : ExecutorState)
    (calls : List (Int × (Nat → Except Thrown Unit))) : ExecutorState :=
  calls.foldl (fun st c => (executeWithRetry ro st c.1 c.2).2) s

/-- Result shape of `testConnection` (azure-client.ts lines 494-508). -/
structure ConnResult where
  success : Bool
  error : Option String
deriving DecidableEq

/-- `AzureClientManager.testConnection` (azure-client.ts lines 494-508):
performs one read (`resourceGroups.list()` then a single `next()`), returns
`{success:true}` on success, and on any throw returns `{success:false,
error}` with the caught error's message (or the fixed string for non-Error
throws). The underlying read is modelled attempt-indexed like the executor's
operations; `testConnection` only ever consults the first attempt. -/
def testConnection (probe : Nat → Except Thrown Unit) : ConnResult :=
  match probe 1 with
  | Except.ok _ => { success := true, error := none }
  | Except.error (.err e) => { success := false, error := some e.message }
  | Except.error .other => { success := false, error := some "Unknown connection error" }

/-- The sensitive-key list of `ContextLogger.sanitizeParams`
(logger.ts line 165). -/
def sensitiveKeys : List String :=
  ["password", "secret", "key", "token", "credential", "auth"]

/-- The sensitivity test of `sanitizeParams` (logger.ts line 168):
the lowercased key contains some entry of `sensitiveKeys`. -/
def isSensitiveKey (key : String) : Bool :=
  sensitiveKeys.any fun sensitive => strContains (jsToLower key) sensitive

/-- `ContextLogger.sanitizeParams` (logger.ts lines 159-174): copy the
object and overwrite each sensitive key's value with `'[REDACTED]'`.
Objects are modelled as association lists with string values. -/
def sanitizeParams (params : List (String × String)) : List (String × String) :=
  params.map fun p => if isSensitiveKey p.1 then (p.1, "[REDACTED]") else p

/-- JS object spread `{...base, ...ctx}` on association lists: keys of
`base` keep their position but take `ctx`'s value when overridden, and keys
only in `ctx` follow. -/
def spreadMerge (base ctx : List (String × String)) : List (String × String) :=
  (base.map fun p =>
    match ctx.lookup p.1 with
    | some v => (p.1, v)
    | none => p) ++
  ctx.filter fun q => (base.lookup q.1).isNone

/-- The structured metadata `ContextLogger.info` hands to the winston sink
(logger.ts lines 102-104): `{...this.baseContext, ...context}`, with no
sanitization applied. `error`, `warn` and `debug` are identical in this
respect. -/
def infoLogPayload (baseContext context : List (String × String)) :
    List (String × String) :=
  spreadMerge baseContext context

/-- The structured metadata `ContextLogger.mcpStart` hands to the sink
(logger.ts lines 123-129): operation, sanitized params, phase. -/
structure McpStartPayload where
  operation : String
  params : List (String × String)
  phase : String
deriving DecidableEq

def mcpStartPayload (operation : String) (params : List (String × String)) :
    McpStartPayload :=
  { operation := operation, params := sanitizeParams params, phase := "start" }

/-- Erase the values of sensitive keys, keeping everything else: two param
objects "differ only in the values of sensitive keys" iff their erasures
are equal. -/
def eraseSensitive (params : List (String × String)) : List (String × Option String) :=
  params.map fun p => (p.1, if isSensitiveKey p.1 then none else some p.2)

/-- `Partial<RetryOptions>`: each field optionally overridden by the caller
(azure-client.ts line 83). The numeric fields are TS `number`s
(src/index.ts lines 239-244), so a caller may pass any integer, negatives
included; they are therefore modelled as `Int`. -/
structure PartialRetryOptions where
  maxRetries : Option Int := none
  baseDelay : Option Int := none
  maxDelay : Option Int := none
  retryableErrors : Option (List String) := none

/-- The effective policy the constructor stores: the same shape as
`RetryOptions` but with TS-number (integer) fields, since no validation
constrains what the merge produces. -/
structure MergedRetryOptions where
  maxRetries : Int
  baseDelay : Int
  maxDelay : Int
  retryableErrors : List String

/-- The constructor's merge `{ ...DEFAULT_RETRY_OPTIONS, ...retryOptions }`
(azure-client.ts line 85): caller-supplied fields win, absent fields fall
back to the defaults. No validation is performed. -/
def mergeRetryOptions (defaults : RetryOptions) (opts : PartialRetryOptions) :
    MergedRetryOptions :=
  { maxRetries := opts.maxRetries.getD (defaults.maxRetries : Int)
    baseDelay := opts.baseDelay.getD (defaults.baseDelay : Int)
    maxDelay := opts.maxDelay.getD (defaults.maxDelay : Int)
    retryableErrors := opts.retryableErrors.getD defaults.retryableErrors }

/-- The spec's data-model invariant on an effective policy:
`baseDelay ≤ maxDelay` and `maxAttempts ≥ 0`. -/
def retryPolicyInvariant (ro : MergedRetryOptions) : Prop :=
  ro.baseDelay ≤ ro.maxDelay ∧ 0 ≤ ro.maxRetries

theorem executeAux_ok {α} (ro : RetryOptions) (op : Nat → Except Thrown α) (t : Nat)
    (v : α) (h : op t = Except.ok v) :
    executeAux ro op t = { outcome := Except.ok v, attempts := 1, delays := [] } := by
  rw [executeAux, h]

theorem executeAux_break {α} (ro : RetryOptions) (op : Nat → Except Thrown α) (t : Nat)
    (th : Thrown) (h : op t = Except.error th)
    (hb : ro.maxRetries < t ∨ isRetryableError ro (normalizeThrown th) = false) :
    executeAux ro op t =
      { outcome := Except.error (normalizeThrown th), attempts := 1, delays := [] } := by
  rw [executeAux, h]
  exact dif_pos hb

theorem executeAux_retry {α} (ro : RetryOptions) (op : Nat → Except Thrown α) (t : Nat)
    (th : Thrown) (h : op t = Except.error th)
    (hb : ¬(ro.maxRetries < t ∨ isRetryableError ro (normalizeThrown th) = false)) :
    executeAux ro op t =
      { outcome := (executeAux ro op (t + 1)).outcome
        attempts := (executeAux ro op (t + 1)).attempts + 1
        delays := backoffDelay ro t :: (executeAux ro op (t + 1)).delays } := by
  rw [executeAux, h]
  exact dif_neg hb

/-- If the operation fails with a retryable error on every attempt from `t`
through the last allowed one, the loop entered at `t` runs all remaining
attempts, sleeps the exponential-backoff delay after each but the last, and
surfaces the final attempt's error. -/
theorem executeAux_allFail {α} (ro : RetryOptions) (op : Nat → Except Thrown α) (t : Nat)
    (ht1 : 1 ≤ t) (ht2 : t ≤ ro.maxRetries + 1)
    (hfail : ∀ a, t ≤ a → a ≤ ro.maxRetries + 1 →
      ∃ e', op a = Except.error (Thrown.err e') ∧ isRetryableError ro e' = true)
    (e : JSError) (hlast : op (ro.maxRetries + 1) = Except.error (Thrown.err e)) :
    executeAux ro op t =
      { outcome := Except.error e
        attempts := ro.maxRetries + 2 - t
        delays := (List.range (ro.maxRetries + 1 - t)).map fun i => backoffDelay ro (t + i) } := by
  obtain ⟨e', hop, hret⟩ := hfail t le_rfl ht2
  by_cases hend : t = ro.maxRetries + 1
  · subst hend
    have he : e' = e := by
      rw [hop] at hlast
      injection hlast with h1
      injection h1
    rw [executeAux_break ro op _ _ hop (Or.inl (by omega))]
    simp only [normalizeThrown, he, ExecResult.mk.injEq]
    refine ⟨trivial, by omega, ?_⟩
    rw [(by omega : ro.maxRetries + 1 - (ro.maxRetries + 1) = 0)]
    rfl
  · have htle : t ≤ ro.maxRetries := by omega
    rw [executeAux_retry ro op t _ hop (by
      push_neg
      refine ⟨by omega, ?_⟩
      simp only [normalizeThrown, hret]
      simp)]
    rw [executeAux_allFail ro op (t + 1) (by omega) (by omega)
      (fun a ha1 ha2 => hfail a (by omega) ha2) e hlast]
    simp only [ExecResult.mk.injEq]
    refine ⟨trivial, by omega, ?_⟩
    rw [(by omega : ro.maxRetries + 1 - t = ro.maxRetries + 1 - (t + 1) + 1),
      List.range_succ_eq_map, List.map_cons, List.map_map]
    apply congrArg₂ List.cons rfl
    apply List.map_congr_left
    intro a _
    rw [(by omega : t + 1 + a = t + (a + 1))]
    rfl
termination_by ro.maxRetries + 1 - t
decreasing_by omega

/-- If the operation fails with a retryable error on attempts `t..k` and
succeeds on attempt `k+1 ≤ maxRetries + 1`, the loop entered at `t` stops
right after the success, with one backoff sleep per failed attempt. -/
theorem executeAux_failThenSucceed {α} (ro : RetryOptions) (op : Nat → Except Thrown α)
    (t k : Nat) (v : α) (ht1 : 1 ≤ t) (htk : t ≤ k + 1) (hk : k ≤ ro.maxRetries)
    (hfail : ∀ a, t ≤ a → a ≤ k →
      ∃ e', op a = Except.error (Thrown.err e') ∧ isRetryableError ro e' = true)
    (hsucc : op (k + 1) = Except.ok v) :
    executeAux ro op t =
      { outcome := Except.ok v
        attempts := k + 2 - t
        delays := (List.range (k + 1 - t)).map fun i => backoffDelay ro (t + i) } := by
  by_cases hend : t = k + 1
  · subst hend
    rw [executeAux_ok ro op _ v hsucc]
    simp only [ExecResult.mk.injEq]
    refine ⟨trivial, by omega, ?_⟩
    rw [(by omega : k + 1 - (k + 1) = 0)]
    rfl
  · have htle : t ≤ k := by omega
    obtain ⟨e', hop, hret⟩ := hfail t le_rfl htle
    rw [executeAux_retry ro op t _ hop (by
      push_neg
      refine ⟨by omega, ?_⟩
      simp only [normalizeThrown, hret]
      simp)]
    rw [executeAux_failThenSucceed ro op (t + 1) k v (by omega) (by omega) hk
      (fun a ha1 ha2 => hfail a (by omega) ha2) hsucc]
    simp only [ExecResult.mk.injEq]
    refine ⟨trivial, by omega, ?_⟩
    rw [(by omega : k + 1 - t = k + 1 - (t + 1) + 1),
      List.range_succ_eq_map, List.map_cons, List.map_map]
    apply congrArg₂ List.cons rfl
    apply List.map_congr_left
    intro a _
    rw [(by omega : t + 1 + a = t + (a + 1))]
    rfl
termination_by k + 1 - t
decreasing_by omega

theorem executeAux_attempts_pos {α} (ro : RetryOptions) (op : Nat → Except Thrown α)
    (t : Nat) : 1 ≤ (executeAux ro op t).attempts := by
  match hop : op t with
  | Except.ok v =>
    rw [executeAux_ok ro op t v hop]
  | Except.error th =>
    by_cases hb : ro.maxRetries < t ∨ isRetryableError ro (normalizeThrown th) = false
    · rw [executeAux_break ro op t th hop hb]
    · rw [executeAux_retry ro op t th hop hb]
      simp

/-- Whenever the loop surfaces an error, that error is exactly what the
operation threw on the final attempt (normalized as the `catch` block does),
never a fresh "retries exhausted" error. -/
theorem executeAux_last_thrown {α} (ro : RetryOptions) (op : Nat → Except Thrown α)
    (t : Nat) (e : JSError) (h : (executeAux ro op t).outcome = Except.error e) :
    ∃ th, op (t + (executeAux ro op t).attempts - 1) = Except.error th ∧
      e = normalizeThrown th := by
  match hop : op t with
  | Except.ok v =>
    rw [executeAux_ok ro op t v hop] at h
    exact absurd h (by simp)
  | Except.error th =>
    by_cases hb : ro.maxRetries < t ∨ isRetryableError ro (normalizeThrown th) = false
    · rw [executeAux_break ro op t th hop hb] at h ⊢
      refine ⟨th, ?_, ?_⟩
      · simpa using hop
      · injection h with h1
        exact h1.symm
    · rw [executeAux_retry ro op t th hop hb] at h ⊢
      obtain ⟨th', hth', he⟩ := executeAux_last_thrown ro op (t + 1) e h
      refine ⟨th', ?_, he⟩
      have hpos := executeAux_attempts_pos ro op (t + 1)
      have : t + ((executeAux ro op (t + 1)).attempts + 1) - 1 =
          t + 1 + (executeAux ro op (t + 1)).attempts - 1 := by omega
      rw [this]
      exact hth'
termination_by ro.maxRetries + 1 - t
decreasing_by
  push_neg at hb
  omega

/-- `strContains` is exactly substring occurrence. -/
theorem strContains_iff (hay needle : String) :
    strContains hay needle = true ↔ needle.data <:+: hay.data := by
  unfold strContains
  rw [List.any_eq_true]
  constructor
  · rintro ⟨i, _, hp⟩
    rw [ List.isPrefixOf_iff_prefix] at hp
    obtain ⟨r, hr⟩ := hp
    exact ⟨hay.data.take i, r, by rw [List.append_assoc, hr, List.take_append_drop]⟩
  · rintro ⟨s, r, hsr⟩
    refine ⟨s.length, ?_, ?_⟩
    · rw [List.mem_range]
      have := congrArg List.length hsr
      simp only [List.length_append] at this
      omega
    · rw [ List.isPrefixOf_iff_prefix, ← hsr, List.append_assoc, List.drop_left]
      exact ⟨r, rfl⟩

/-- `sanitizeParams` is oblivious to the values stored under sensitive keys:
params equal after erasing those values sanitize identically. -/
theorem sanitizeParams_congr :
    ∀ ps qs : List (String × String),
      eraseSensitive ps = eraseSensitive qs → sanitizeParams ps = sanitizeParams qs := by
  intro ps
  induction ps with
  | nil =>
    intro qs h
    cases qs with
    | nil => rfl
    | cons q qs' => simp [eraseSensitive] at h
  | cons p ps' ih =>
    intro qs h
    cases qs with
    | nil => simp [eraseSensitive] at h
    | cons q qs' =>
      obtain ⟨pk, pv⟩ := p
      obtain ⟨qk, qv⟩ := q
      simp only [eraseSensitive, List.map_cons, List.cons.injEq, Prod.mk.injEq] at h
      obtain ⟨⟨hk, hv⟩, htail⟩ := h
      subst hk
      have htl : sanitizeParams ps' = sanitizeParams qs' :=
        ih qs' (by simpa [eraseSensitive] using htail)
      simp only [sanitizeParams, List.map_cons]
      refine congrArg₂ List.cons ?_ htl
      by_cases hs : isSensitiveKey pk = true
      · simp [hs]
      · simp only [Bool.not_eq_true] at hs
        simp only [hs, Bool.false_eq_true, if_false, Option.some.injEq] at hv ⊢
        rw [hv]

theorem sanitizeParams_redacts :
    ∀ (ps : List (String × String)) (k v : String),
      (k, v) ∈ sanitizeParams ps → isSensitiveKey k = true → v = "[REDACTED]" := by
  intro ps k v hmem hsens
  simp only [sanitizeParams, List.mem_map] at hmem
  obtain ⟨⟨pk, pv⟩, hp, heq⟩ := hmem
  by_cases hs : isSensitiveKey pk = true
  · rw [if_pos hs] at heq
    simp only [Prod.mk.injEq] at heq
    exact heq.2.symm
  · rw [if_neg hs] at heq
    simp only [Prod.mk.injEq] at heq
    obtain ⟨h1, _⟩ := heq
    exact absurd (h1 ▸ hsens) hs

theorem sanitizeParams_keeps_nonsensitive :
    ∀ (ps : List (String × String)) (k v : String),
      (k, v) ∈ ps → isSensitiveKey k = false → (k, v) ∈ sanitizeParams ps := by
  intro ps k v hmem hs
  simp only [sanitizeParams, List.mem_map]
  exact ⟨(k, v), hmem, by simp [hs]⟩

theorem runCalls_requestCount (ro : RetryOptions)
    (calls : List (Int × (Nat → Except Thrown Unit))) :
    ∀ s : ExecutorState, (runCalls ro s calls).requestCount = s.requestCount + calls.length := by
  induction calls with
  | nil => intro s; rfl
  | cons c cs ih =>
    intro s
    show (runCalls ro ((executeWithRetry ro s c.1 c.2).2) cs).requestCount = _
    rw [ih]
    show (applyRateLimit s c.1).2.requestCount + cs.length = _
    show s.requestCount + 1 + cs.length = _
    simp [List.length_cons]
    omega

/-! ### Claim theorems -/

/-- C1: for a retry policy with `maxRetries = N`, an operation failing with a
retryable error on every attempt is attempted exactly `N+1` times and the
executor raises the last attempt's error; with `maxRetries = 0` any failing
operation is attempted exactly once, its error is raised, and no backoff
delay is inserted. -/
theorem executeWithRetry_exhausts_all_attempts :
    (∀ (α : Type) (ro : RetryOptions) (s : ExecutorState) (now : Int)
        (op : Nat → Except Thrown α) (e : JSError),
      (∀ a, 1 ≤ a → a ≤ ro.maxRetries + 1 →
        ∃ e', op a = Except.error (Thrown.err e') ∧ isRetryableError ro e' = true) →
      op (ro.maxRetries + 1) = Except.error (Thrown.err e) →
      (executeWithRetry ro s now op).1.attempts = ro.maxRetries + 1 ∧
      (executeWithRetry ro s now op).1.outcome = Except.error e) ∧
    (∀ (α : Type) (ro : RetryOptions) (s : ExecutorState) (now : Int)
        (op : Nat → Except Thrown α) (e : JSError),
      ro.maxRetries = 0 → op 1 = Except.error (Thrown.err e) →
      (executeWithRetry ro s now op).1.attempts = 1 ∧
      (executeWithRetry ro s now op).1.outcome = Except.error e ∧
      (executeWithRetry ro s now op).1.delays = []) := by
  constructor
  · intro α ro s now op e hfail hlast
    have h := executeAux_allFail ro op 1 le_rfl (by omega) hfail e hlast
    show (executeAux ro op 1).attempts = ro.maxRetries + 1 ∧
      (executeAux ro op 1).outcome = Except.error e
    rw [h]
    refine ⟨?_, rfl⟩
    show ro.maxRetries + 2 - 1 = ro.maxRetries + 1
    omega
  · intro α ro s now op e h0 hop
    have h := executeAux_break ro op 1 _ hop (Or.inl (by omega))
    show (executeAux ro op 1).attempts = 1 ∧
      (executeAux ro op 1).outcome = Except.error e ∧ (executeAux ro op 1).delays = []
    rw [h]
    exact ⟨rfl, rfl, rfl⟩

theorem executeWithRetry_exhausts_all_attempts_witness :
    (executeWithRetry DEFAULT_RETRY_OPTIONS ⟨0, 0⟩ 0
      (fun _ => (Except.error (Thrown.err ⟨"Error", "ServiceUnavailable: try again"⟩) :
        Except Thrown Nat))).1.attempts = 4 ∧
    (executeWithRetry { DEFAULT_RETRY_OPTIONS with maxRetries := 0 } ⟨0, 0⟩ 0
      (fun _ => (Except.error (Thrown.err ⟨"BadError", "Bad request"⟩) :
        Except Thrown Nat))).1.attempts = 1 := by
  constructor
  · exact (executeWithRetry_exhausts_all_attempts.1 Nat DEFAULT_RETRY_OPTIONS ⟨0, 0⟩ 0 _
      ⟨"Error", "ServiceUnavailable: try again"⟩
      (fun a _ _ => ⟨_, rfl, by decide⟩) rfl).1
  · exact (executeWithRetry_exhausts_all_attempts.2 Nat
      { DEFAULT_RETRY_OPTIONS with maxRetries := 0 } ⟨0, 0⟩ 0 _
      ⟨"BadError", "Bad request"⟩ rfl rfl).1

/-- C2: when the operation keeps failing retryably, the delay slept before
attempt `a+1` is exactly `min(baseDelay * 2^(a-1), maxDelay)` (the list below
is indexed by `i = a-1`), and the computed backoff delay never exceeds
`maxDelay`, for arbitrarily large attempt numbers. -/
theorem executeWithRetry_backoff_formula :
    (∀ (α : Type) (ro : RetryOptions) (s : ExecutorState) (now : Int)
        (op : Nat → Except Thrown α),
      (∀ a, 1 ≤ a → a ≤ ro.maxRetries + 1 →
        ∃ e', op a = Except.error (Thrown.err e') ∧ isRetryableError ro e' = true) →
      (executeWithRetry ro s now op).1.delays =
        (List.range ro.maxRetries).map fun i => min (ro.baseDelay * 2 ^ i) ro.maxDelay) ∧
    (∀ (ro : RetryOptions) (a : Nat), backoffDelay ro a ≤ ro.maxDelay) := by
  constructor
  · intro α ro s now op hfail
    obtain ⟨e, hop, _⟩ := hfail (ro.maxRetries + 1) (by omega) le_rfl
    have h := executeAux_allFail ro op 1 le_rfl (by omega) hfail e hop
    show (executeAux ro op 1).delays = _
    rw [h]
    rw [(by omega : ro.maxRetries + 1 - 1 = ro.maxRetries)]
    apply List.map_congr_left
    intro a _
    show backoffDelay ro (1 + a) = _
    unfold backoffDelay
    rw [(by omega : 1 + a - 1 = a)]
  · intro ro a
    exact min_le_right _ _

theorem executeWithRetry_backoff_formula_witness :
    (executeWithRetry DEFAULT_RETRY_OPTIONS ⟨0, 0⟩ 0
      (fun _ => (Except.error (Thrown.err ⟨"Error", "ETIMEDOUT"⟩) :
        Except Thrown Nat))).1.delays = [1000, 2000, 4000] := by
  have h := executeWithRetry_backoff_formula.1 Nat DEFAULT_RETRY_OPTIONS ⟨0, 0⟩ 0 _
    (fun a _ _ => ⟨⟨"Error", "ETIMEDOUT"⟩, rfl, by decide⟩)
  rw [h]
  decide

/-- C3: an error is classified retryable iff its message or name contains,
case-insensitively, one of the configured `retryableErrors` signatures; an
operation failing with a non-retryable error is attempted exactly once, with
no backoff wait. -/
theorem isRetryableError_characterization :
    (∀ (ro : RetryOptions) (e : JSError),
      isRetryableError ro e = true ↔
        ∃ sig ∈ ro.retryableErrors,
          containsCaseInsensitive e.message sig ∨ containsCaseInsensitive e.name sig) ∧
    (∀ (α : Type) (ro : RetryOptions) (s : ExecutorState) (now : Int)
        (op : Nat → Except Thrown α) (e : JSError),
      op 1 = Except.error (Thrown.err e) → isRetryableError ro e = false →
      (executeWithRetry ro s now op).1.attempts = 1 ∧
      (executeWithRetry ro s now op).1.outcome = Except.error e ∧
      (executeWithRetry ro s now op).1.delays = []) := by
  constructor
  · intro ro e
    constructor
    · intro h
      simp only [isRetryableError, List.any_eq_true, Bool.or_eq_true] at h
      obtain ⟨sig, hsig, hp⟩ := h
      exact ⟨sig, hsig, hp.imp (strContains_iff _ _).mp (strContains_iff _ _).mp⟩
    · rintro ⟨sig, hsig, hp⟩
      simp only [isRetryableError, List.any_eq_true, Bool.or_eq_true]
      exact ⟨sig, hsig, hp.imp (strContains_iff _ _).mpr (strContains_iff _ _).mpr⟩
  · intro α ro s now op e hop hret
    have h := executeAux_break ro op 1 _ hop (Or.inr (by simpa [normalizeThrown] using hret))
    show (executeAux ro op 1).attempts = 1 ∧
      (executeAux ro op 1).outcome = Except.error e ∧ (executeAux ro op 1).delays = []
    rw [h]
    exact ⟨rfl, rfl, rfl⟩

theorem isRetryableError_characterization_witness :
    (executeWithRetry DEFAULT_RETRY_OPTIONS ⟨0, 0⟩ 0
      (fun _ => (Except.error (Thrown.err ⟨"BadError", "Bad request: malformed payload"⟩) :
        Except Thrown Nat))).1.attempts = 1 :=
  (isRetryableError_characterization.2 Nat DEFAULT_RETRY_OPTIONS ⟨0, 0⟩ 0 _
    ⟨"BadError", "Bad request: malformed payload"⟩ rfl (by decide)).1

/-- C4: if the operation fails retryably on attempts `1..k` and succeeds on
attempt `k+1` with `k < maxRetries`, the executor makes exactly `k+1`
attempts, returns the success value, and sleeps only the `k` backoff delays
before the successful attempt (none after it). -/
theorem executeWithRetry_success_short_circuits :
    ∀ (α : Type) (ro : RetryOptions) (s : ExecutorState) (now : Int)
      (op : Nat → Except Thrown α) (k : Nat) (v : α),
      k < ro.maxRetries →
      (∀ a, 1 ≤ a → a ≤ k →
        ∃ e', op a = Except.error (Thrown.err e') ∧ isRetryableError ro e' = true) →
      op (k + 1) = Except.ok v →
      (executeWithRetry ro s now op).1.attempts = k + 1 ∧
      (executeWithRetry ro s now op).1.outcome = Except.ok v ∧
      (executeWithRetry ro s now op).1.delays.length = k := by
  intro α ro s now op k v hk hfail hsucc
  have h := executeAux_failThenSucceed ro op 1 k v le_rfl (by omega) (by omega) hfail hsucc
  show (executeAux ro op 1).attempts = k + 1 ∧
    (executeAux ro op 1).outcome = Except.ok v ∧ (executeAux ro op 1).delays.length = k
  rw [h]
  refine ⟨?_, rfl, ?_⟩
  · show k + 2 - 1 = k + 1
    omega
  · show ((List.range (k + 1 - 1)).map fun i => backoffDelay ro (1 + i)).length = k
    simp only [List.length_map, List.length_range]
    omega

theorem executeWithRetry_success_short_circuits_witness :
    (executeWithRetry DEFAULT_RETRY_OPTIONS ⟨0, 0⟩ 0
      (fun a => if a ≤ 2 then Except.error (Thrown.err ⟨"Error", "ServiceUnavailable: try again"⟩)
                else (Except.ok 42 : Except Thrown Nat))).1.attempts = 3 :=
  (executeWithRetry_success_short_circuits Nat DEFAULT_RETRY_OPTIONS ⟨0, 0⟩ 0 _ 2 42
    (by decide)
    (fun a ha1 ha2 => ⟨⟨"Error", "ServiceUnavailable: try again"⟩, by rw [if_pos ha2], by decide⟩)
    rfl).1

/-- C5: the rate-limit gate runs exactly once per logical call, before the
first attempt: the executor's state change is exactly `applyRateLimit`'s,
`requestCount` rises by one per call, `lastRequestTime` is written once, to
the post-wait instant, all independent of the operation and its retries; and
after `M` logical calls from a fresh counter, `getStatistics` reports
`requestCount = M`. -/
theorem executeWithRetry_rate_limit_accounting :
    (∀ (α : Type) (ro : RetryOptions) (s : ExecutorState) (now : Int)
        (op : Nat → Except Thrown α),
      (executeWithRetry ro s now op).2 = (applyRateLimit s now).2 ∧
      (executeWithRetry ro s now op).2.requestCount = s.requestCount + 1 ∧
      (executeWithRetry ro s now op).2.lastRequestTime = now + (applyRateLimit s now).1) ∧
    (∀ (α : Type) (ro : RetryOptions) (s : ExecutorState) (now : Int)
        (op op' : Nat → Except Thrown α),
      (executeWithRetry ro s now op).2 = (executeWithRetry ro s now op').2) ∧
    (∀ (ro : RetryOptions) (t0 : Int) (calls : List (Int × (Nat → Except Thrown Unit))),
      (getStatistics (runCalls ro ⟨0, t0⟩ calls)).requestCount = calls.length) := by
  refine ⟨fun α ro s now op => ⟨rfl, rfl, rfl⟩, fun α ro s now op op' => rfl, ?_⟩
  intro ro t0 calls
  show (runCalls ro ⟨0, t0⟩ calls).requestCount = calls.length
  rw [runCalls_requestCount ro calls ⟨0, t0⟩]
  show 0 + calls.length = calls.length
  omega

/-- C6: a failing call never swallows or translates the failure: the raised
error is exactly what the operation's final attempt threw (normalized by the
`catch` clause), never a fresh retry-exhausted error; in particular when the
final attempt threw an `Error` object, that object is re-raised verbatim.
This covers both the non-retryable and the retries-exhausted case. -/
theorem executeWithRetry_raises_last_error_verbatim :
    (∀ (α : Type) (ro : RetryOptions) (s : ExecutorState) (now : Int)
        (op : Nat → Except Thrown α) (e : JSError),
      (executeWithRetry ro s now op).1.outcome = Except.error e →
      ∃ th, op ((executeWithRetry ro s now op).1.attempts) = Except.error th ∧
        e = normalizeThrown th) ∧
    (∀ (α : Type) (ro : RetryOptions) (s : ExecutorState) (now : Int)
        (op : Nat → Except Thrown α) (e e0 : JSError),
      (executeWithRetry ro s now op).1.outcome = Except.error e →
      op ((executeWithRetry ro s now op).1.attempts) = Except.error (Thrown.err e0) →
      e = e0) := by
  constructor
  · intro α ro s now op e h
    have h' : (executeAux ro op 1).outcome = Except.error e := h
    obtain ⟨th, hth, he⟩ := executeAux_last_thrown ro op 1 e h'
    refine ⟨th, ?_, he⟩
    show op ((executeAux ro op 1).attempts) = Except.error th
    have hpos := executeAux_attempts_pos ro op 1
    rw [(by omega : (executeAux ro op 1).attempts = 1 + (executeAux ro op 1).attempts - 1)]
    exact hth
  · intro α ro s now op e e0 h hop
    have h' : (executeAux ro op 1).outcome = Except.error e := h
    obtain ⟨th, hth, he⟩ := executeAux_last_thrown ro op 1 e h'
    have hpos := executeAux_attempts_pos ro op 1
    have hidx : 1 + (executeAux ro op 1).attempts - 1 = (executeAux ro op 1).attempts := by
      omega
    rw [hidx] at hth
    have hop' : op ((executeAux ro op 1).attempts) = Except.error (Thrown.err e0) := hop
    rw [hop'] at hth
    injection hth with h1
    rw [he, ← h1]
    rfl

theorem executeWithRetry_raises_last_error_verbatim_witness :
    ∃ th,
      (fun _ => (Except.error (Thrown.err ⟨"BadError", "boom"⟩) : Except Thrown Nat))
        ((executeWithRetry DEFAULT_RETRY_OPTIONS ⟨0, 0⟩ 0
          (fun _ => (Except.error (Thrown.err ⟨"BadError", "boom"⟩) :
            Except Thrown Nat))).1.attempts) = Except.error th ∧
      (⟨"BadError", "boom"⟩ : JSError) = normalizeThrown th := by
  refine executeWithRetry_raises_last_error_verbatim.1 Nat DEFAULT_RETRY_OPTIONS ⟨0, 0⟩ 0
    (fun _ => (Except.error (Thrown.err ⟨"BadError", "boom"⟩) : Except Thrown Nat))
    ⟨"BadError", "boom"⟩ ?_
  show (executeAux DEFAULT_RETRY_OPTIONS
    (fun _ => (Except.error (Thrown.err ⟨"BadError", "boom"⟩) : Except Thrown Nat)) 1).outcome = _
  rw [executeAux_break DEFAULT_RETRY_OPTIONS _ 1 (Thrown.err ⟨"BadError", "boom"⟩) rfl
    (Or.inr (by decide))]
  rfl

/-- C7: `testConnection` consults at most one underlying read attempt (its
result depends only on the first probe outcome, never on the retry
machinery), and never raises: success yields `{success := true}`, an `Error`
throw yields `{success := false, error := message}`, and a non-`Error` throw
yields the fixed unknown-error string. -/
theorem testConnection_single_probe_no_raise :
    (∀ p q : Nat → Except Thrown Unit, p 1 = q 1 → testConnection p = testConnection q) ∧
    (∀ p : Nat → Except Thrown Unit,
      ((testConnection p).success = true ↔ p 1 = Except.ok ())) ∧
    (∀ (p : Nat → Except Thrown Unit) (e : JSError),
      p 1 = Except.error (Thrown.err e) →
      testConnection p = { success := false, error := some e.message }) ∧
    (∀ p : Nat → Except Thrown Unit,
      p 1 = Except.error Thrown.other →
      testConnection p = { success := false, error := some "Unknown connection error" }) := by
  refine ⟨?_, ?_, ?_, ?_⟩
  · intro p q h
    unfold testConnection
    rw [h]
  · intro p
    match hp : p 1 with
    | Except.ok u =>
      cases u
      unfold testConnection
      rw [hp]
      simp
    | Except.error (.err e) =>
      unfold testConnection
      rw [hp]
      simp
    | Except.error .other =>
      unfold testConnection
      rw [hp]
      simp
  · intro p e h
    unfold testConnection
    rw [h]
  · intro p h
    unfold testConnection
    rw [h]

theorem testConnection_single_probe_no_raise_witness :
    testConnection (fun _ => Except.ok ()) =
      testConnection (fun n => if n = 1 then Except.ok () else Except.error Thrown.other) :=
  testConnection_single_probe_no_raise.1 _ _ rfl

/-- C8 counterexample: two contexts that differ only in the value of the
sensitive key `password` are persisted differently by `ContextLogger.info`
(the general log methods pass context to the sink with no redaction), and
the secret value appears verbatim in the persisted payload. -/
theorem infoLog_persists_sensitive_context_verbatim :
    infoLogPayload [] [("password", "hunter2")] ≠ infoLogPayload [] [("password", "xyzzy")] ∧
    ("password", "hunter2") ∈ infoLogPayload [] [("password", "hunter2")] ∧
    isSensitiveKey "password" = true := by
  refine ⟨?_, ?_, ?_⟩ <;> decide

/-- C8 (amended): redaction is applied only at the `mcpStart` entry point,
through `sanitizeParams`: there, params differing only in the values of
sensitive keys (lowercased name containing password/secret/key/token/
credential/auth) yield identical persisted payloads, every sensitive key's
value is `'[REDACTED]'`, and non-sensitive entries pass through unchanged.
Contexts logged through `error`/`warn`/`info`/`debug` (and the executor's
console shim) are persisted without redaction. -/
theorem mcpStart_redacts_sensitive_params :
    (∀ (operation : String) (ps qs : List (String × String)),
      eraseSensitive ps = eraseSensitive qs →
      mcpStartPayload operation ps = mcpStartPayload operation qs) ∧
    (∀ (ps : List (String × String)) (k v : String),
      (k, v) ∈ sanitizeParams ps → isSensitiveKey k = true → v = "[REDACTED]") ∧
    (∀ (ps : List (String × String)) (k v : String),
      (k, v) ∈ ps → isSensitiveKey k = false → (k, v) ∈ sanitizeParams ps) := by
  refine ⟨?_, sanitizeParams_redacts, sanitizeParams_keeps_nonsensitive⟩
  intro operation ps qs h
  unfold mcpStartPayload
  rw [sanitizeParams_congr ps qs h]

theorem mcpStart_redacts_sensitive_params_witness :
    mcpStartPayload "deployVm" [("region", "eastus"), ("adminPassword", "hunter2")] =
      mcpStartPayload "deployVm" [("region", "eastus"), ("adminPassword", "xyzzy")] :=
  mcpStart_redacts_sensitive_params.1 "deployVm" _ _ (by decide)

/-- C9 counterexample: the constructor performs no validation, so the
invariant does not hold "however constructed": the caller override
`baseDelay := 40000` merged over the defaults gives an effective
`baseDelay = 40000` above `maxDelay = 30000`, and the override
`maxRetries := -2` gives an effective `maxAttempts = -2 < 0`. -/
theorem merged_retry_options_violate_invariant :
    (¬ retryPolicyInvariant
      (mergeRetryOptions DEFAULT_RETRY_OPTIONS
        { maxRetries := none, baseDelay := some 40000, maxDelay := none,
          retryableErrors := none })) ∧
    (¬ retryPolicyInvariant
      (mergeRetryOptions DEFAULT_RETRY_OPTIONS
        { maxRetries := some (-2), baseDelay := none, maxDelay := none,
          retryableErrors := none })) := by
  constructor <;> (unfold retryPolicyInvariant; decide)

/-- C9 (amended): a default-constructed policy (no overrides) satisfies
`baseDelay ≤ maxDelay` and `maxAttempts ≥ 0`; since the constructor
validates nothing, a policy merged from caller overrides satisfies the
invariant exactly when the effective (overridden-or-default) values do —
whenever the effective delays respect `baseDelay ≤ maxDelay` and the
effective `maxRetries` is nonnegative. The policy is a value fixed at
construction (never reassigned afterwards). -/
theorem retry_options_invariant_conditional :
    retryPolicyInvariant
      (mergeRetryOptions DEFAULT_RETRY_OPTIONS
        { maxRetries := none, baseDelay := none, maxDelay := none,
          retryableErrors := none }) ∧
    (∀ p : PartialRetryOptions,
      p.baseDelay.getD (DEFAULT_RETRY_OPTIONS.baseDelay : Int) ≤
        p.maxDelay.getD (DEFAULT_RETRY_OPTIONS.maxDelay : Int) →
      0 ≤ p.maxRetries.getD (DEFAULT_RETRY_OPTIONS.maxRetries : Int) →
      retryPolicyInvariant (mergeRetryOptions DEFAULT_RETRY_OPTIONS p)) := by
  constructor
  · unfold retryPolicyInvariant
    decide
  · intro p h1 h2
    exact ⟨h1, h2⟩

theorem retry_options_invariant_conditional_witness :
    retryPolicyInvariant
      (mergeRetryOptions DEFAULT_RETRY_OPTIONS
        { maxRetries := some 5, baseDelay := some 500, maxDelay := none,
          retryableErrors := none }) :=
  retry_options_invariant_conditional.2 _ (by decide) (by decide)

